import Mathlib

/-!
# Verification of the Labyrinth data-distillation pipeline

Shallow embedding, in Lean 4, of the core of the handwriting-stroke
refinement data pipeline:

* `refine_mvp/scripts/chunking.py` — window segmentation and padding,
* `refine_mvp/scripts/normalize.py` — per-channel affine normalization,
* `refine_mvp/scripts/teacher_refine.py` — the subprocess-backed teacher
  channel and its line-framed wire protocol,
* `refine_mvp/scripts/build_pairs.py` — the orchestration loop (per-file
  skipping and shard flushing),
* `Slate/tools/rnn_normalize.py` — the Welford streaming statistics
  accumulator.

Real values are modelled by `ℚ` (the claims under study are exact
algebraic identities; `1e-8` becomes the literal rational). A float that
may be non-finite is modelled as `Option ℚ`, `none` standing for
`inf`/`nan`. Fallible functions return `Except String`; a Python `nan`
result is modelled as `Option`.
-/

deriving instance DecidableEq for Except

/-- One point row of a `[T,3]` array: `(dx, dy, p)`. -/
structure Pt where
  dx : ℚ
  dy : ℚ
  p : ℚ
deriving DecidableEq, Repr

/-- The all-zero row, as produced by `np.zeros((max_len, 3))`. -/
def pt0 : Pt := ⟨0, 0, 0⟩

/-! ## chunking.py -/

/-- The loop body of `to_windows`:
`for i in range(0, points.shape[0], step): windows.append(points[i : i + max_len])`.
`fuel` bounds the number of iterations; the loop runs at most
`points.length` times whenever `step ≥ 1`, which `to_windows`' guards
guarantee, so the `fuel = 0` branch with points remaining is never
reached from `to_windows`. -/
def windowsGo (step maxLen : Nat) : Nat → List Pt → List (List Pt)
  | _, [] => []
  | 0, _ :: _ => []
  | fuel + 1, q :: qs => (q :: qs).take maxLen :: windowsGo step maxLen fuel ((q :: qs).drop step)

/-- `to_windows(points, max_len, overlap)` from `chunking.py`: split a
`[T,3]` point stream into windows of length `max_len`, starting at
indices `0, step, 2·step, …` with `step = max_len - overlap`.
`overlap` is a `Nat`, so the Python check `overlap < 0` cannot fire. -/
def to_windows (points : List Pt) (maxLen overlap : Nat) : Except String (List (List Pt)) :=
  if maxLen ≤ 0 then .error "max_len must be > 0"
  else if overlap ≥ maxLen then .error "overlap must be in [0, max_len)"
  else .ok (windowsGo (maxLen - overlap) maxLen points.length points)

/-- `pad_window(window, max_len)` from `chunking.py`: allocate `X` as
`max_len×3` zeros and `mask` as `max_len` zeros; if the window is empty
return them as is; otherwise overwrite the prefix of `X` with
`clipped = window[:max_len]` and the matching prefix of `mask` with ones. -/
def pad_window (window : List Pt) (maxLen : Nat) : Except String (List Pt × List ℚ) :=
  if maxLen ≤ 0 then .error "max_len must be > 0"
  else
    let X := List.replicate maxLen pt0
    let mask : List ℚ := List.replicate maxLen 0
    if window.length ≤ 0 then .ok (X, mask)
    else
      let clipped := window.take maxLen
      .ok (clipped ++ X.drop clipped.length,
           List.replicate clipped.length (1 : ℚ) ++ mask.drop clipped.length)

/-- The rows of `X` at positions where `mask` is `1` (the masked-valid
rows), in order. -/
def maskedRows (X : List Pt) (mask : List ℚ) : List Pt :=
  (X.zip mask).filterMap (fun rm => if rm.2 = 1 then some rm.1 else none)

/-- Segment with `to_windows`, pad every window with `pad_window`, and
concatenate the masked-valid rows of each padded window in window order. -/
def reconstruct (points : List Pt) (maxLen overlap : Nat) : Except String (List Pt) := do
  let ws ← to_windows points maxLen overlap
  let padded ← ws.mapM (fun w => pad_window w maxLen)
  pure (padded.map (fun xm => maskedRows xm.1 xm.2)).flatten

/-! ## normalize.py

`normalize_X` mutates a numpy array in place (after taking a copy of its
argument), so it is embedded against an explicit array store: arrays live
in numbered cells, `np.astype(..., copy=True)` allocates a fresh cell,
and each slice assignment updates one cell. -/

/-- A `[T,3]` array value. -/
abbrev Arr := List Pt

/-- A heap of array values, addressed by allocation index. -/
structure Store where
  cells : List Arr
deriving Repr

/-- Read the array in cell `i` (an invalid index reads as the empty array). -/
def Store.get (s : Store) (i : Nat) : Arr := s.cells.getD i []

/-- Overwrite the array in cell `i`. -/
def Store.set (s : Store) (i : Nat) (a : Arr) : Store := ⟨s.cells.set i a⟩

/-- Allocate a fresh cell holding `a`; returns the new store and the
fresh cell's index. -/
def Store.alloc (s : Store) (a : Arr) : Store × Nat :=
  (⟨s.cells ++ [a]⟩, s.cells.length)

/-- `DxDyNorm` from `normalize.py`: the normalization constants. -/
structure DxDyNorm where
  mean_dx : ℚ
  std_dx : ℚ
  mean_dy : ℚ
  std_dy : ℚ
deriving DecidableEq, Repr

/-- The `1e-8` guard added to each std in `normalize_X`. -/
def normEps : ℚ := 1 / 100000000

/-- `normalize_X(X, norm, zero_stroke_starts=...)` from `normalize.py`,
acting on the store: `out = X.astype(np.float32, copy=True)` allocates a
fresh cell copying cell `x`; then `out[:, 0]` and `out[:, 1]` are
normalized by two slice assignments; if `zero_stroke_starts`, rows of
`out` with `out[:, 2] ≥ 0.5` get `dx` and `dy` forced to `0`. Returns the
final store and the index of `out`. -/
def normalize_X (st : Store) (x : Nat) (norm : DxDyNorm) (zero_stroke_starts : Bool) :
    Store × Nat :=
  let a := st.alloc (st.get x)
  let st1 := a.1
  let out := a.2
  let st2 := st1.set out ((st1.get out).map
    (fun r => ⟨(r.dx - norm.mean_dx) / (norm.std_dx + normEps), r.dy, r.p⟩))
  let st3 := st2.set out ((st2.get out).map
    (fun r => ⟨r.dx, (r.dy - norm.mean_dy) / (norm.std_dy + normEps), r.p⟩))
  if zero_stroke_starts then
    let st4 := st3.set out ((st3.get out).map
      (fun r => if r.p ≥ 1/2 then ⟨0, 0, r.p⟩ else r))
    (st4, out)
  else (st3, out)

/-- The affine per-row transform applied by the two slice assignments of
`normalize_X` (dx then dy; `p` untouched). -/
def normRow (norm : DxDyNorm) (r : Pt) : Pt :=
  ⟨(r.dx - norm.mean_dx) / (norm.std_dx + normEps),
   (r.dy - norm.mean_dy) / (norm.std_dy + normEps), r.p⟩

/-! ## Slate/tools/rnn_normalize.py — RunningStats

Welford's streaming accumulator. An input float is `Option ℚ`: `none`
models a non-finite value (`math.isfinite(x)` false), which `update`
skips. `variance_population` returns `float("nan")` when `n ≤ 0`,
modelled as `none`. -/

/-- The `RunningStats` dataclass: count, running mean, and accumulated
squared deviation `m2`. -/
structure RunningStats where
  n : ℕ := 0
  mean : ℚ := 0
  m2 : ℚ := 0
deriving DecidableEq, Repr

/-- `RunningStats.update(x)`: skip non-finite inputs; otherwise one step
of Welford's algorithm. -/
def RunningStats.update (st : RunningStats) (x : Option ℚ) : RunningStats :=
  match x with
  | none => st
  | some v =>
    let n := st.n + 1
    let delta := v - st.mean
    let mean := st.mean + delta / n
    let delta2 := v - mean
    ⟨n, mean, st.m2 + delta * delta2⟩

/-- `RunningStats.variance_population()`: `m2 / n`, undefined
(`float("nan")`, modelled `none`) when `n ≤ 0`. -/
def RunningStats.variance_population (st : RunningStats) : Option ℚ :=
  if st.n ≤ 0 then none else some (st.m2 / st.n)

/-- Fold a whole input sequence into a fresh accumulator. -/
def runStats (xs : List (Option ℚ)) : RunningStats :=
  xs.foldl RunningStats.update {}

/-- The two-pass population variance of the claim: mean first, then the
average squared deviation from it. -/
def twoPassVariance (ys : List ℚ) : ℚ :=
  ((ys.map (fun v => (v - ys.sum / ys.length) ^ 2)).sum) / ys.length

/-! ## teacher_refine.py — the subprocess protocol channel

`DeepWritingSubprocessTeacher` owns one worker process. Its observable
request/response behaviour is embedded over the sequence of lines the
worker emits on its stdout during one request: `readline()` returning a
line is a list element, `readline()` returning `""` (end of stream) is
the end of the list. -/

/-- The two error classes `refine` can raise: `RuntimeError` for channel
failures (worker death / end of stream) and `ValueError` for data-shape
failures. -/
inductive TeacherError where
  | channelError
  | dataError
deriving DecidableEq, Repr

/-- `line.rstrip("\n")`: drop every trailing newline character. -/
def rstripNL (s : String) : String :=
  String.mk ((s.data.reverse.dropWhile (fun c => c = '\n')).reverse)

/-- Python `line.startswith(marker)`: `marker`'s characters are a prefix
of `line`'s. -/
def strStartsWith (s marker : String) : Bool :=
  marker.data.isPrefixOf s.data

/-- The read loop of `DeepWritingSubprocessTeacher.refine`: read lines
until one starts with the framing marker (`cfg.protocol_prefix`,
literally `"@@DWJSON@@"`); strip the marker from that line and return
the payload. An empty read (end of the list) means the worker exited:
`RuntimeError`, a channel error. Non-marker lines are skipped. -/
def readResponse (marker : String) : List String → Except TeacherError String
  | [] => .error .channelError
  | line :: rest =>
    let l := rstripNL line
    if strStartsWith l marker then .ok (l.drop marker.length)
    else readResponse marker rest

/-- Whether `_proc` refers to a live worker: `poll() is None` means
running, otherwise the process has exited. -/
inductive ProcState where
  | running
  | exited
deriving DecidableEq, Repr

/-- The channel's process-management state: `proc` is `self._proc`
(`none` when no process object is held), and `spawns` counts how many
worker processes `subprocess.Popen` has created on this instance. -/
structure Chan where
  proc : Option ProcState
  spawns : Nat
deriving DecidableEq, Repr

/-- `DeepWritingSubprocessTeacher._start()`: a no-op when `self._proc`
is a live process (`poll() is None`); otherwise spawn a fresh worker. -/
def Chan.start (c : Chan) : Chan :=
  if c.proc = some ProcState.running then c
  else ⟨some ProcState.running, c.spawns + 1⟩

/-- `DeepWritingSubprocessTeacher.__init__` calls `_start()` on a fresh
instance. -/
def Chan.init : Chan := Chan.start ⟨none, 0⟩

/-- `DeepWritingSubprocessTeacher.refine`, at the process-management
level: call `_start()`, write the request, then run the read loop over
the lines the worker emits. If the read loop hits end of stream the
worker has exited (its `poll()` no longer returns `None`) and the call
raises the channel error; otherwise the payload is returned and the
worker is still held as live. -/
def Chan.refine (c : Chan) (marker : String) (lines : List String) :
    Chan × Except TeacherError String :=
  let c1 := c.start
  match readResponse marker lines with
  | .error e => (⟨some ProcState.exited, c1.spawns⟩, .error e)
  | .ok payload => (c1, .ok payload)

/-- The default framing marker, `DeepWritingSubprocessConfig.protocol_prefix`. -/
def dwMarker : String := "@@DWJSON@@"

/-! ## build_pairs.py — the orchestration loop

Two aspects of `main` are embedded: how the per-file loop reacts to bad
source files, and how accepted examples are grouped into shards. -/

/-- What `_load_points_and_norm(path)` followed by the two array checks
can encounter for one source file:
* `malformed` — `json.loads` / `np.asarray` raises while loading;
* `emptyPoints` — `points.size == 0`;
* `badShape` — `points.ndim != 2 or points.shape[1] != 3`;
* `good points` — a well-formed `[T,3]` point array. -/
inductive SrcFile where
  | malformed
  | emptyPoints
  | badShape
  | good (points : List Pt)
deriving DecidableEq, Repr

/-- The per-file control flow of `main`'s loop, abstracted to which files
get processed: a `malformed` file raises out of the loop (there is no
try/except around `_load_points_and_norm`), `emptyPoints` and `badShape`
hit `continue`, and a `good` file is processed (counted). Returns the
number of files processed, or the uncaught exception. -/
def processFiles : List SrcFile → Except String Nat
  | [] => .ok 0
  | .malformed :: _ => .error "exception while loading source file"
  | .emptyPoints :: rest => processFiles rest
  | .badShape :: rest => processFiles rest
  | .good _ :: rest => (processFiles rest).map (· + 1)

/-- The shard-buffer loop of `main`, over the stream `xs` of accepted
examples, with no window cap in force: each example is appended to the
buffer `buf`; when `len(buf) ≥ shard_size` the buffer is flushed as one
shard and reset; after the stream, a non-empty remainder is flushed as a
final shard. Returns the list of flushed shards in order. -/
def runShards (S : Nat) : List α → List α → List (List α)
  | [], buf => if buf.isEmpty then [] else [buf]
  | x :: xs, buf =>
    let buf' := buf ++ [x]
    if S ≤ buf'.length then buf' :: runShards S xs [] else runShards S xs buf'

/-! # Theorems -/

/-! ## Store lemmas -/

lemma Store.length_set (s : Store) (i : Nat) (a : Arr) :
    (s.set i a).cells.length = s.cells.length := by
  simp [Store.set]

lemma Store.get_set_self (s : Store) (i : Nat) (a : Arr) (h : i < s.cells.length) :
    (s.set i a).get i = a := by
  simp [Store.set, Store.get, List.getD, List.getElem?_set_self h]

lemma Store.get_set_ne (s : Store) (i j : Nat) (a : Arr) (h : i ≠ j) :
    (s.set i a).get j = s.get j := by
  simp [Store.set, Store.get, List.getD, List.getElem?_set_ne h]

lemma Store.get_alloc_fst (s : Store) (a : Arr) :
    (s.alloc a).1.get (s.alloc a).2 = a := by
  simp [Store.alloc, Store.get, List.getD]

lemma Store.get_alloc_old (s : Store) (a : Arr) (y : Nat) (hy : y < s.cells.length) :
    (s.alloc a).1.get y = s.get y := by
  simp [Store.alloc, Store.get, List.getD]
  rw [List.getElem?_append, if_pos hy]

/-! ## C3 — framing on the worker's output stream -/

/-- C3: in the subprocess teacher's read loop, a line that does not begin
with the framing marker is skipped without affecting the result, and a
line that does begin with the marker is taken as the response with the
marker stripped; in particular an unframed line followed by a framed line
yields the framed line's payload. -/
theorem readResponse_framing (marker bad framed : String) (rest : List String)
    (hbad : strStartsWith (rstripNL bad) marker = false)
    (hframed : strStartsWith (rstripNL framed) marker = true) :
    readResponse marker (bad :: rest) = readResponse marker rest ∧
    readResponse marker (framed :: rest) = .ok ((rstripNL framed).drop marker.length) ∧
    readResponse marker (bad :: framed :: rest) =
      .ok ((rstripNL framed).drop marker.length) := by
  refine ⟨?_, ?_, ?_⟩ <;> simp [readResponse, hbad, hframed]

/-- Witness for `readResponse_framing` at the default marker, a noise
line and a framed line. -/
theorem readResponse_framing_witness :
    strStartsWith (rstripNL "loading model weights") dwMarker = false ∧
    strStartsWith (rstripNL "@@DWJSON@@payload") dwMarker = true ∧
    readResponse dwMarker ["loading model weights", "@@DWJSON@@payload"] = .ok "payload" := by
  refine ⟨by decide, by decide, ?_⟩
  exact ((readResponse_framing dwMarker "loading model weights" "@@DWJSON@@payload" []
    (by decide) (by decide)).2.2).trans (by decide)

/-! ## C4 — end of stream before a framed line -/

/-- C4: if the worker's output stream ends (empty read) before any line
bearing the framing marker has been read, the refine call surfaces the
channel-level error (worker death), never the data-shape error, and
returns no value. -/
theorem refine_eos_channel_error (c : Chan) (marker : String) (lines : List String)
    (h : ∀ l ∈ lines, strStartsWith (rstripNL l) marker = false) :
    (c.refine marker lines).2 = .error TeacherError.channelError ∧
    (c.refine marker lines).2 ≠ .error TeacherError.dataError ∧
    ∀ y, (c.refine marker lines).2 ≠ .ok y := by
  have hr : readResponse marker lines = .error TeacherError.channelError := by
    induction lines with
    | nil => rfl
    | cons l rest ih =>
      have hl := h l (List.mem_cons_self l rest)
      simpa [readResponse, hl] using ih (fun x hx => h x (List.mem_cons_of_mem l hx))
  refine ⟨?_, ?_, ?_⟩ <;> simp [Chan.refine, hr]

/-- Witness for `refine_eos_channel_error`: a worker that prints one
diagnostic line and exits. -/
theorem refine_eos_channel_error_witness :
    (∀ l ∈ ["traceback follows"], strStartsWith (rstripNL l) dwMarker = false) ∧
    (Chan.init.refine dwMarker ["traceback follows"]).2 = .error TeacherError.channelError := by
  refine ⟨by decide, ?_⟩
  exact (refine_eos_channel_error Chan.init dwMarker ["traceback follows"] (by decide)).1

/-! ## C2 — is a worker exit terminal for the channel instance? -/

/-- C2 is false on the code: start from a freshly initialised channel
(one worker spawned), observe a worker exit during a request (end of
stream); the very next `refine` call on the same instance spawns a second
worker (`_start` respawns because `poll()` is no longer `None`) and
succeeds, instead of surfacing an error without spawning. -/
theorem subprocess_failure_not_terminal_cex :
    Chan.init.spawns = 1 ∧
    (Chan.init.refine dwMarker []).2 = .error TeacherError.channelError ∧
    (Chan.init.refine dwMarker []).1.spawns = 1 ∧
    ((Chan.init.refine dwMarker []).1.refine dwMarker ["@@DWJSON@@ok"]).1.spawns = 2 ∧
    ((Chan.init.refine dwMarker []).1.refine dwMarker ["@@DWJSON@@ok"]).2 = .ok "ok" := by
  refine ⟨by decide, by decide, by decide, by decide, by decide⟩

/-- C2 (amended): a worker exit observed during a request makes that
call raise the channel error, with no replacement spawned within the
failing call, and leaves the instance holding an exited process; but the
failure is not terminal for the instance — the next `refine` call spawns
exactly one fresh worker and, when the new worker answers with a framed
line, succeeds rather than erroring. -/
theorem subprocess_exit_then_respawn (c d : Chan) (marker payload : String)
    (lines : List String)
    (hc : c.proc = some ProcState.running)
    (hd : d.proc = some ProcState.exited)
    (hl : readResponse marker lines = .ok payload) :
    (c.refine marker []).2 = .error TeacherError.channelError ∧
    (c.refine marker []).1 = ⟨some ProcState.exited, c.spawns⟩ ∧
    (d.refine marker lines).1.spawns = d.spawns + 1 ∧
    (d.refine marker lines).2 = .ok payload := by
  have hcstart : c.start = c := by simp [Chan.start, hc]
  have hdstart : d.start = ⟨some ProcState.running, d.spawns + 1⟩ := by
    simp [Chan.start, hd]
  refine ⟨?_, ?_, ?_, ?_⟩ <;>
    simp [Chan.refine, hcstart, hdstart, hl, readResponse]

/-- Witness for `subprocess_exit_then_respawn`: the post-`__init__`
running channel and a dead channel that gets one framed answer after the
respawn. -/
theorem subprocess_exit_then_respawn_witness :
    ((⟨some ProcState.running, 1⟩ : Chan).refine dwMarker []).2 =
      .error TeacherError.channelError ∧
    ((⟨some ProcState.exited, 1⟩ : Chan).refine dwMarker ["@@DWJSON@@ok"]).1.spawns = 2 ∧
    ((⟨some ProcState.exited, 1⟩ : Chan).refine dwMarker ["@@DWJSON@@ok"]).2 = .ok "ok" := by
  have h := subprocess_exit_then_respawn ⟨some ProcState.running, 1⟩
    ⟨some ProcState.exited, 1⟩ dwMarker "ok" ["@@DWJSON@@ok"] rfl rfl (by decide)
  exact ⟨h.1, h.2.2.1, h.2.2.2⟩

/-! ## C8 — per-file error recovery in the orchestrator -/

/-- C8 is false on the code: a malformed source file is not skipped — the
uncaught load exception aborts the run, so a following well-formed file
is never processed (by itself it would be). `main` keeps no skip counter
at all. -/
theorem malformed_file_aborts_cex :
    processFiles [SrcFile.malformed, SrcFile.good []] =
      .error "exception while loading source file" ∧
    processFiles [SrcFile.good []] = .ok 1 := ⟨rfl, rfl⟩

/-- C8 (amended): a file whose point array is empty or has the wrong
shape/channel count is skipped (no counter is incremented — none exists)
and processing continues with the remaining files unchanged; a malformed
source file, however, aborts the whole run. -/
theorem per_file_skip_and_abort (rest : List SrcFile) :
    processFiles (SrcFile.emptyPoints :: rest) = processFiles rest ∧
    processFiles (SrcFile.badShape :: rest) = processFiles rest ∧
    processFiles (SrcFile.malformed :: rest) =
      .error "exception while loading source file" := ⟨rfl, rfl, rfl⟩

/-! ## C6 — the window padder -/

/-- C6: for every window and `max_len > 0`, `pad_window` succeeds and
returns `X` as the window's first `min(len, max_len)` rows followed by
zero rows up to length `max_len`, and the mask as that many ones
followed by zeros, whose sum is `min(len, max_len)`; a longer-than-
`max_len` window is truncated and a zero-length window gives all-zero
`X` and mask, neither an error. -/
theorem pad_window_spec (w : List Pt) (maxLen : Nat) (h : 0 < maxLen) :
    pad_window w maxLen =
      .ok (w.take maxLen ++ List.replicate (maxLen - min w.length maxLen) pt0,
           List.replicate (min w.length maxLen) (1 : ℚ) ++
             List.replicate (maxLen - min w.length maxLen) (0 : ℚ)) ∧
    (w.take maxLen ++ List.replicate (maxLen - min w.length maxLen) pt0).length = maxLen ∧
    (List.replicate (min w.length maxLen) (1 : ℚ) ++
       List.replicate (maxLen - min w.length maxLen) (0 : ℚ)).sum = min w.length maxLen := by
  have hmin : (w.take maxLen).length = min w.length maxLen := by
    rw [List.length_take, Nat.min_comm]
  refine ⟨?_, ?_, ?_⟩
  · rcases Nat.eq_zero_or_pos w.length with hw | hw
    · have hwnil : w = [] := List.length_eq_zero.mp hw
      subst hwnil
      simp [pad_window, Nat.not_le.mpr h]
    · simp only [pad_window, if_neg (Nat.not_le.mpr h), if_neg (Nat.not_le.mpr hw)]
      rw [hmin, List.drop_replicate, List.drop_replicate]
  · rw [List.length_append, List.length_replicate, hmin]
    omega
  · rw [List.sum_append, List.sum_replicate, List.sum_replicate, smul_zero, add_zero,
      nsmul_eq_mul, mul_one]

/-- Witness for `pad_window_spec`: a 2-row window padded to length 3. -/
theorem pad_window_spec_witness :
    (0 : Nat) < 3 ∧
    pad_window [⟨1, 2, 1⟩, ⟨3, 4, 0⟩] 3 =
      .ok ([⟨1, 2, 1⟩, ⟨3, 4, 0⟩, pt0], [1, 1, 0]) := by
  refine ⟨by decide, ?_⟩
  exact ((pad_window_spec [⟨1, 2, 1⟩, ⟨3, 4, 0⟩] 3 (by decide)).1).trans (by decide)

/-! ## C7 — the normalizer preserves `p` and zeroes stroke starts -/

lemma normalize_X_get_out_false (st : Store) (x : Nat) (norm : DxDyNorm) :
    (normalize_X st x norm false).1.get (normalize_X st x norm false).2 =
      (st.get x).map (normRow norm) := by
  have halloc := Store.get_alloc_fst st (st.get x)
  have hlen : (st.alloc (st.get x)).2 < (st.alloc (st.get x)).1.cells.length := by
    simp [Store.alloc]
  simp only [normalize_X, halloc, Store.get_set_self, Store.length_set, hlen,
    Bool.false_eq_true, ite_false, List.map_map]
  exact List.map_congr_left (fun r _ => rfl)

lemma normalize_X_get_out_true (st : Store) (x : Nat) (norm : DxDyNorm) :
    (normalize_X st x norm true).1.get (normalize_X st x norm true).2 =
      ((st.get x).map (normRow norm)).map
        (fun r : Pt => if r.p ≥ 1/2 then (⟨0, 0, r.p⟩ : Pt) else r) := by
  have halloc := Store.get_alloc_fst st (st.get x)
  have hlen : (st.alloc (st.get x)).2 < (st.alloc (st.get x)).1.cells.length := by
    simp [Store.alloc]
  simp only [normalize_X, halloc, Store.get_set_self, Store.length_set, hlen, ite_true,
    List.map_map]
  exact List.map_congr_left (fun r _ => rfl)

/-- C7: `normalize_X` leaves channel 2 (`p`) of every row unchanged, and
with `zero_stroke_starts = true` every output row whose `p ≥ 0.5` has
`dx = dy = 0` exactly. -/
theorem normalize_X_p_passthrough (st : Store) (x : Nat) (norm : DxDyNorm) (zss : Bool) :
    ((normalize_X st x norm zss).1.get (normalize_X st x norm zss).2).map Pt.p =
      (st.get x).map Pt.p ∧
    (zss = true → ∀ r ∈ (normalize_X st x norm zss).1.get (normalize_X st x norm zss).2,
      1/2 ≤ r.p → r.dx = 0 ∧ r.dy = 0) := by
  cases zss
  · refine ⟨?_, fun h => absurd h (by decide)⟩
    rw [normalize_X_get_out_false]
    simp [List.map_map, Function.comp, normRow]
  · refine ⟨?_, ?_⟩
    · rw [normalize_X_get_out_true]
      simp [List.map_map, Function.comp, apply_ite Pt.p, normRow]
    · intro _ r hr hp
      rw [normalize_X_get_out_true] at hr
      simp only [List.mem_map] at hr
      obtain ⟨r', _, rfl⟩ := hr
      by_cases h' : r'.p ≥ 1/2
      · refine ⟨?_, ?_⟩ <;> simp only [if_pos h']
      · simp only [if_neg h'] at hp ⊢
        exact absurd hp h'

/-- Witness for `normalize_X_p_passthrough`: a store holding one 2-row
array, constants `(0,1,0,1)`, `zero_stroke_starts = true`. -/
theorem normalize_X_p_passthrough_witness :
    ((normalize_X ⟨[[⟨1, 2, 1⟩, ⟨3, 4, 0⟩]]⟩ 0 ⟨0, 1, 0, 1⟩ true).1.get
        (normalize_X ⟨[[⟨1, 2, 1⟩, ⟨3, 4, 0⟩]]⟩ 0 ⟨0, 1, 0, 1⟩ true).2).map Pt.p =
      [1, 0] ∧
    ∀ r ∈ (normalize_X ⟨[[⟨1, 2, 1⟩, ⟨3, 4, 0⟩]]⟩ 0 ⟨0, 1, 0, 1⟩ true).1.get
        (normalize_X ⟨[[⟨1, 2, 1⟩, ⟨3, 4, 0⟩]]⟩ 0 ⟨0, 1, 0, 1⟩ true).2,
      1/2 ≤ r.p → r.dx = 0 ∧ r.dy = 0 := by
  have h := normalize_X_p_passthrough ⟨[[⟨1, 2, 1⟩, ⟨3, 4, 0⟩]]⟩ 0 ⟨0, 1, 0, 1⟩ true
  exact ⟨h.1.trans (by decide), h.2 rfl⟩

/-! ## C10 — the normalizer never mutates its argument -/

/-- C10: `normalize_X` copies its input (`astype(..., copy=True)`) and
mutates only the copy: every array cell that existed before the call —
in particular the argument `X` itself — holds exactly the values it held
before, for both `zero_stroke_starts` settings. -/
theorem normalize_X_no_mutation (st : Store) (x y : Nat) (norm : DxDyNorm) (zss : Bool)
    (hy : y < st.cells.length) :
    (normalize_X st x norm zss).1.get y = st.get y := by
  have hne : st.cells.length ≠ y := (Nat.ne_of_lt hy).symm
  cases zss <;>
    simp [normalize_X, Store.alloc, Store.set, Store.get, List.getD,
      List.getElem?_set_ne hne, List.getElem?_append, if_pos hy]

/-- Witness for `normalize_X_no_mutation`: the argument array is read
back unchanged after normalizing with `zero_stroke_starts = true`. -/
theorem normalize_X_no_mutation_witness :
    0 < (⟨[[⟨1, 2, 1⟩]]⟩ : Store).cells.length ∧
    (normalize_X ⟨[[⟨1, 2, 1⟩]]⟩ 0 ⟨0, 1, 0, 1⟩ true).1.get 0 =
      (⟨[[⟨1, 2, 1⟩]]⟩ : Store).get 0 :=
  ⟨by decide, normalize_X_no_mutation ⟨[[⟨1, 2, 1⟩]]⟩ 0 0 ⟨0, 1, 0, 1⟩ true (by decide)⟩

/-! ## C9 — shard flushing -/

lemma runShards_flatten {α : Type} (S : Nat) (xs buf : List α) :
    (runShards S xs buf).flatten = buf ++ xs := by
  induction xs generalizing buf with
  | nil =>
    by_cases h : buf.isEmpty
    · simp [runShards, h, List.isEmpty_iff.mp h]
    · simp [runShards, h]
  | cons x xs ih =>
    by_cases h : S ≤ buf.length + 1
    · simp [runShards, h, ih]
    · simp [runShards, h, ih]

lemma runShards_lengths {α : Type} (S : Nat) (xs : List α) :
    ∀ buf : List α, 0 < S → buf.length < S →
      (runShards S xs buf).map List.length =
        List.replicate ((buf.length + xs.length) / S) S ++
          (if (buf.length + xs.length) % S = 0 then []
           else [(buf.length + xs.length) % S]) := by
  induction xs with
  | nil =>
    intro buf hS hb
    have hdiv : buf.length / S = 0 := Nat.div_eq_of_lt hb
    have hmod : buf.length % S = buf.length := Nat.mod_eq_of_lt hb
    by_cases h : buf.isEmpty
    · have : buf = [] := List.isEmpty_iff.mp h
      subst this
      simp [runShards]
    · have hne : buf ≠ [] := fun hc => h (by simp [hc])
      have hlen : buf.length ≠ 0 := fun hc => hne (List.length_eq_zero.mp hc)
      simp [runShards, h, hdiv, hmod, hlen]
  | cons x xs ih =>
    intro buf hS hb
    by_cases h : S ≤ buf.length + 1
    · have hbS : buf.length + 1 = S := by omega
      have ihz := ih [] hS hS
      have hgoal : runShards S (x :: xs) buf = (buf ++ [x]) :: runShards S xs [] := by
        simp [runShards, h]
      rw [hgoal, List.map_cons, ihz]
      have h1 : (S + xs.length) / S = xs.length / S + 1 := by
        rw [Nat.add_comm S xs.length, Nat.add_div_right _ hS]
      have h2 : (S + xs.length) % S = xs.length % S := by
        rw [Nat.add_comm S xs.length, Nat.add_mod_right]
      rw [show buf.length + (x :: xs).length = S + xs.length by simp; omega, h1, h2,
        List.replicate_succ]
      simp [hbS]
    · have hlt : (buf ++ [x]).length < S := by simp; omega
      have ihb := ih (buf ++ [x]) hS hlt
      have hgoal : runShards S (x :: xs) buf = runShards S xs (buf ++ [x]) := by
        simp [runShards, h]
      rw [hgoal, ihb]
      have harith : (buf ++ [x]).length + xs.length = buf.length + (x :: xs).length := by
        simp
        omega
      rw [harith]

/-- C9: with shard size `S > 0` and `N` accepted examples (no window
cap), the buffer is flushed exactly each time it reaches `S` examples
and reset, with any non-empty remainder flushed as one final smaller
shard: the shards' sizes are `N / S` copies of `S` followed by `N % S`
when non-zero, their concatenation is the original example stream, and
`N / S + (1 if N % S ≠ 0 else 0) = ⌈N/S⌉` shards are written (so
`shard_size = 2` with 5 examples gives 3 shards of sizes `[2, 2, 1]`,
see the witness). -/
theorem shard_flushing_spec {α : Type} (S : Nat) (xs : List α) (hS : 0 < S) :
    (runShards S xs []).map List.length =
      List.replicate (xs.length / S) S ++
        (if xs.length % S = 0 then [] else [xs.length % S]) ∧
    (runShards S xs []).flatten = xs ∧
    (runShards S xs []).length =
      xs.length / S + (if xs.length % S = 0 then 0 else 1) := by
  have hmap := runShards_lengths S xs [] hS hS
  simp only [List.length_nil, Nat.zero_add] at hmap
  refine ⟨hmap, by simpa using runShards_flatten S xs [], ?_⟩
  have hlen := congrArg List.length hmap
  simpa [List.length_map, List.length_append, List.length_replicate,
    apply_ite List.length] using hlen

/-- Witness for `shard_flushing_spec`: `shard_size = 2`, five examples →
three shards of sizes `[2, 2, 1]`. -/
theorem shard_flushing_spec_witness :
    (0 : Nat) < 2 ∧
    (runShards 2 [1, 2, 3, 4, 5] ([] : List Nat)).map List.length = [2, 2, 1] ∧
    (runShards 2 [1, 2, 3, 4, 5] ([] : List Nat)).length = 3 := by
  refine ⟨by decide, ?_, ?_⟩
  · exact ((shard_flushing_spec 2 [1, 2, 3, 4, 5] (by decide)).1).trans (by decide)
  · exact ((shard_flushing_spec 2 [1, 2, 3, 4, 5] (by decide)).2.2).trans (by decide)

/-! ## C5 — the streaming statistics accumulator -/

lemma foldl_update_filterMap (xs : List (Option ℚ)) :
    ∀ st : RunningStats,
      xs.foldl RunningStats.update st =
        ((xs.filterMap id).map some).foldl RunningStats.update st := by
  induction xs with
  | nil => intro st; rfl
  | cons x xs ih =>
    intro st
    cases x with
    | none => simpa [RunningStats.update] using ih st
    | some v => simpa using ih (st.update (some v))

lemma runStats_filterMap (xs : List (Option ℚ)) :
    runStats xs = runStats ((xs.filterMap id).map some) :=
  foldl_update_filterMap xs {}

/-- Closed form of Welford's recurrence over `ℚ`: after folding `ys`,
the count is the length, the mean is `sum / length`, and `m2` is the sum
of squares minus `sum² / length` (all division-by-zero values agreeing
at `ys = []` by `ℚ`'s zero-division convention). -/
lemma welford_closed (ys : List ℚ) :
    runStats (ys.map some) =
      ⟨ys.length, ys.sum / ys.length,
       (ys.map (fun v => v ^ 2)).sum - ys.sum ^ 2 / ys.length⟩ := by
  induction ys using List.reverseRecOn with
  | nil => simp [runStats]
  | append_singleton ys v ih =>
    have hfold : runStats ((ys ++ [v]).map some) =
        (runStats (ys.map some)).update (some v) := by
      simp [runStats, List.foldl_append]
    rw [hfold, ih]
    rcases Nat.eq_zero_or_pos ys.length with hn | hn
    · have hnil : ys = [] := List.length_eq_zero.mp hn
      subst hnil
      simp [RunningStats.update]
    · have hne : (ys.length : ℚ) ≠ 0 := Nat.cast_ne_zero.mpr (Nat.not_eq_zero_of_lt hn)
      have hne1 : (ys.length : ℚ) + 1 ≠ 0 := by positivity
      simp only [RunningStats.update, RunningStats.mk.injEq, List.sum_append,
        List.map_append, List.length_append, List.sum_cons, List.sum_nil, List.map_cons,
        List.map_nil, List.length_cons, List.length_nil]
      refine ⟨trivial, ?_, ?_⟩
      · push_cast
        field_simp
        ring
      · push_cast
        field_simp
        ring

lemma sum_sq_dev (ys : List ℚ) (c : ℚ) :
    (ys.map (fun v => (v - c) ^ 2)).sum =
      (ys.map (fun v => v ^ 2)).sum - 2 * c * ys.sum + ys.length * c ^ 2 := by
  induction ys with
  | nil => simp
  | cons y ys ih =>
    simp only [List.map_cons, List.sum_cons, List.length_cons, ih]
    push_cast
    ring

lemma twoPassVariance_eq (ys : List ℚ) (h : ys ≠ []) :
    twoPassVariance ys =
      ((ys.map (fun v => v ^ 2)).sum - ys.sum ^ 2 / ys.length) / ys.length := by
  have hne : (ys.length : ℚ) ≠ 0 :=
    Nat.cast_ne_zero.mpr (fun hc => h (List.length_eq_zero.mp hc))
  rw [twoPassVariance, sum_sq_dev]
  field_simp
  ring

/-- C5: over exact rational arithmetic, folding any finite sequence into
the accumulator gives count = number of finite inputs, mean = their
arithmetic mean, and (when at least one finite input arrived) population
variance = the two-pass population variance; an `update` with a
non-finite value leaves the state unchanged; with count 0 the population
variance is undefined (`none`), not zero. -/
theorem runningStats_exact (xs : List (Option ℚ)) (st : RunningStats) :
    (runStats xs).n = (xs.filterMap id).length ∧
    (runStats xs).mean = (xs.filterMap id).sum / (xs.filterMap id).length ∧
    (xs.filterMap id ≠ [] →
      (runStats xs).variance_population = some (twoPassVariance (xs.filterMap id))) ∧
    st.update none = st ∧
    (st.n = 0 → st.variance_population = none) := by
  have hw := welford_closed (xs.filterMap id)
  have hr := runStats_filterMap xs
  rw [hr, hw]
  refine ⟨rfl, rfl, ?_, rfl, ?_⟩
  · intro hne
    have hlen : (xs.filterMap id).length ≠ 0 := fun hc => hne (List.length_eq_zero.mp hc)
    simp only [RunningStats.variance_population]
    rw [if_neg (by omega), twoPassVariance_eq _ hne]
  · intro h0
    simp [RunningStats.variance_population, h0]

/-- Witness for `runningStats_exact`: inputs `1, nan, 3` give count 2,
mean 2, population variance 1, with the non-finite input ignored. -/
theorem runningStats_exact_witness :
    ([some (1 : ℚ), none, some 3].filterMap id ≠ []) ∧
    (runStats [some (1 : ℚ), none, some 3]).n = 2 ∧
    (runStats [some (1 : ℚ), none, some 3]).mean = 2 ∧
    (runStats [some (1 : ℚ), none, some 3]).variance_population = some 1 ∧
    (⟨0, 0, 0⟩ : RunningStats).update none = ⟨0, 0, 0⟩ := by
  have h := runningStats_exact [some (1 : ℚ), none, some 3] ⟨0, 0, 0⟩
  have hfm : List.filterMap id [some (1 : ℚ), none, some 3] = [1, 3] := by decide
  rw [hfm] at h
  refine ⟨by decide, h.1.trans (by decide), (h.2.1).trans (by norm_num), ?_, h.2.2.2.1⟩
  refine (h.2.2.1 (by decide)).trans ?_
  norm_num [twoPassVariance]

/-! ## C1 — segment, pad, and reconstruct -/

lemma maskedRows_ones (l : List Pt) :
    maskedRows l (List.replicate l.length (1 : ℚ)) = l := by
  induction l with
  | nil => rfl
  | cons a l ih => simp [maskedRows, List.replicate_succ] at ih ⊢; exact ih

lemma maskedRows_zeros (l : List Pt) : ∀ k,
    maskedRows l (List.replicate k (0 : ℚ)) = [] := by
  induction l with
  | nil => intro k; simp [maskedRows]
  | cons a l ih =>
    intro k
    cases k with
    | zero => simp [maskedRows]
    | succ k =>
      simp [maskedRows, List.replicate_succ] at ih ⊢
      exact ih k

lemma maskedRows_append (a b : List Pt) (m1 m2 : List ℚ) (h : a.length = m1.length) :
    maskedRows (a ++ b) (m1 ++ m2) = maskedRows a m1 ++ maskedRows b m2 := by
  simp [maskedRows, List.zip_append h, List.filterMap_append]

/-- Padding a window and keeping only the masked-valid rows gives back
the window truncated to `max_len`. -/
lemma pad_window_masked (w : List Pt) (M : Nat) (h : 0 < M) :
    ∃ X m, pad_window w M = .ok (X, m) ∧ maskedRows X m = w.take M := by
  by_cases hw : w.length ≤ 0
  · have hnil : w = [] := List.length_eq_zero.mp (Nat.le_zero.mp hw)
    subst hnil
    refine ⟨List.replicate M pt0, List.replicate M (0 : ℚ), ?_, ?_⟩
    · simp [pad_window, Nat.not_le.mpr h]
    · simpa using maskedRows_zeros (List.replicate M pt0) M
  · refine ⟨w.take M ++ (List.replicate M pt0).drop (w.take M).length,
      List.replicate (w.take M).length (1 : ℚ) ++
        (List.replicate M (0 : ℚ)).drop (w.take M).length, ?_, ?_⟩
    · simp only [pad_window, if_neg (Nat.not_le.mpr h), if_neg hw]
    · rw [List.drop_replicate, List.drop_replicate,
        maskedRows_append _ _ _ _ (by simp),
        maskedRows_ones, maskedRows_zeros, List.append_nil]

lemma mapM_pad (M : Nat) (h : 0 < M) (ws : List (List Pt)) :
    ∃ ps : List (List Pt × List ℚ),
      ws.mapM (fun w => pad_window w M) = .ok ps ∧
        ps.map (fun xm => maskedRows xm.1 xm.2) = ws.map (fun w => w.take M) := by
  induction ws with
  | nil => exact ⟨[], rfl, rfl⟩
  | cons w ws ih =>
    obtain ⟨X, m, hpad, hmask⟩ := pad_window_masked w M h
    obtain ⟨ps, hps, hmap⟩ := ih
    refine ⟨(X, m) :: ps, ?_, ?_⟩
    · rw [List.mapM_cons, hpad, hps]
      rfl
    · simp [hmask, hmap]

/-- With stride `M` equal to the window length `M`, the truncated
windows concatenate back to the input. -/
lemma windowsGo_take_flatten (M : Nat) (h : 0 < M) :
    ∀ fuel pts, pts.length ≤ fuel →
      ((windowsGo M M fuel pts).map (fun w => w.take M)).flatten = pts := by
  intro fuel
  induction fuel with
  | zero =>
    intro pts hp
    have : pts = [] := List.length_eq_zero.mp (Nat.le_zero.mp hp)
    subst this
    rfl
  | succ fuel ih =>
    intro pts hp
    cases pts with
    | nil => rfl
    | cons q qs =>
      simp only [windowsGo, List.map_cons, List.flatten_cons]
      rw [List.take_take, min_self]
      have hd : ((q :: qs).drop M).length ≤ fuel := by
        simp only [List.length_drop, List.length_cons] at hp ⊢
        omega
      rw [ih _ hd, List.take_append_drop]

/-- C1 is false on the code as quantified: with `max_len = 2` and
`overlap = 1`, overlapping windows repeat the shared points, so
concatenating the masked-valid rows of the padded windows duplicates
points 2 and 3 instead of reconstructing the 3-point sequence. -/
theorem reconstruct_overlap_cex :
    reconstruct [⟨1, 0, 0⟩, ⟨2, 0, 0⟩, ⟨3, 0, 0⟩] 2 1 =
      .ok [⟨1, 0, 0⟩, ⟨2, 0, 0⟩, ⟨2, 0, 0⟩, ⟨3, 0, 0⟩, ⟨3, 0, 0⟩] ∧
    reconstruct [⟨1, 0, 0⟩, ⟨2, 0, 0⟩, ⟨3, 0, 0⟩] 2 1 ≠
      .ok [⟨1, 0, 0⟩, ⟨2, 0, 0⟩, ⟨3, 0, 0⟩] :=
  ⟨by decide, by decide⟩

/-- C1 (amended): for every `max_len > 0` and `overlap = 0`, segmenting
with `to_windows`, padding every window with `pad_window`, and
concatenating the masked-valid rows in window order yields exactly the
original sequence. -/
theorem reconstruct_overlap_zero (points : List Pt) (maxLen : Nat) (h : 0 < maxLen) :
    reconstruct points maxLen 0 = .ok points := by
  have htw : to_windows points maxLen 0 =
      .ok (windowsGo maxLen maxLen points.length points) := by
    simp [to_windows, Nat.not_le.mpr h]
  obtain ⟨ps, hps, hmap⟩ := mapM_pad maxLen h (windowsGo maxLen maxLen points.length points)
  have hbind : ∀ {β γ : Type} (a : β) (f : β → Except String γ), Except.ok a >>= f = f a :=
    fun a f => rfl
  simp only [reconstruct, htw, hps, hbind]
  rw [hmap, windowsGo_take_flatten maxLen h points.length points le_rfl]
  rfl

/-- Witness for `reconstruct_overlap_zero`: three points, `max_len = 2`,
`overlap = 0` reconstruct exactly. -/
theorem reconstruct_overlap_zero_witness :
    (0 : Nat) < 2 ∧
    reconstruct [⟨1, 0, 0⟩, ⟨2, 0, 0⟩, ⟨3, 0, 0⟩] 2 0 =
      .ok [⟨1, 0, 0⟩, ⟨2, 0, 0⟩, ⟨3, 0, 0⟩] :=
  ⟨by decide, reconstruct_overlap_zero [⟨1, 0, 0⟩, ⟨2, 0, 0⟩, ⟨3, 0, 0⟩] 2 (by decide)⟩


